import Mathlib

/-!
Verification development for the WhisperXSRTGenerator repository.

The Python sources (segments.py, SRTWriter.py) are shallowly embedded here:
  * times are exact rationals (`ℚ`), with Python's float `divmod`/`%`/`int`
    modelled by `pydivmod`, `pymod`, `pyint`;
  * raw dictionaries become structures with `Option` fields, and a missing
    key accessed with `d[k]` becomes an `Except` failure (`getKey`);
  * in-place mutation of lists becomes explicit state threading: each loop of
    the Python code is a structural recursion whose carried arguments are
    exactly the values the loop body can still observe.
-/

/-- Python `int(q)` on a float: truncation toward zero. -/
def pyint (q : ℚ) : ℤ := if q < 0 then -⌊-q⌋ else ⌊q⌋

/-- Python `a % b` on floats (`b` as divisor): `a - b * floor (a / b)`. -/
def pymod (a b : ℚ) : ℚ := a - b * ((⌊a / b⌋ : ℤ) : ℚ)

/-- Python `divmod(a, b)` on floats: quotient `floor (a / b)` and remainder `a % b`. -/
def pydivmod (a b : ℚ) : ℚ × ℚ := (((⌊a / b⌋ : ℤ) : ℚ), pymod a b)

/-- segments.py, class `ITTTime`: an hours/minutes/seconds/frames timecode. -/
structure ITTTime where
  frame_rate : ℚ
  hours : ℤ
  minutes : ℤ
  seconds : ℤ
  frames : ℤ
deriving Repr, DecidableEq

/-- Stand-in value used where the Python code would dereference a `None`
timecode (which would raise `AttributeError`); every theorem below is applied
only to inputs whose timecodes are present, so this default is never observed
by a claim. -/
def ITTTime.default : ITTTime :=
  { frame_rate := 0, hours := 0, minutes := 0, seconds := 0, frames := 0 }

/-- segments.py lines 4-11, `ITTTime.__init__`:
`hours, remainder = divmod(t, 3600)`; `minutes, full_seconds = divmod(remainder, 60)`;
the four stored fields go through Python `int(...)`. -/
def ITTTime.init (time_in_seconds : ℚ) (frame_rate : ℚ) : ITTTime :=
  let hr := pydivmod time_in_seconds 3600
  let ms := pydivmod hr.2 60
  { frame_rate := frame_rate
    hours := pyint hr.1
    minutes := pyint ms.1
    seconds := pyint ms.2
    frames := pyint (pymod time_in_seconds 1 * frame_rate) }

/-- A raw word mapping as consumed by both pipelines: every key optional. -/
structure WordDict where
  word : Option String
  start : Option ℚ
  end_ : Option ℚ
  score : Option ℚ
  highlighted : Option Bool
deriving Repr, DecidableEq

/-- A raw segment mapping: every key optional. -/
structure SegmentDict where
  start : Option ℚ
  end_ : Option ℚ
  text : Option String
  words : Option (List WordDict)
deriving Repr, DecidableEq

/-- Python `d[key]`: the value when the key is present, a `KeyError` otherwise. -/
def getKey {α : Type} (v : Option α) (key : String) : Except String α :=
  match v with
  | some x => Except.ok x
  | none => Except.error ("KeyError: " ++ key)

/-- segments.py, class `Word` (fields set by `__init__`). -/
structure Word where
  start : ℚ
  end_ : ℚ
  text : String
  score : Option ℚ
  highlighted : Bool
  frame_rate : Option ℚ
  itt_start : Option ITTTime
  itt_end : Option ITTTime
deriving Repr, DecidableEq

/-- segments.py lines 17-25, `Word.__init__`: reads `word["start"]`,
`word["end"]`, `word["word"]` (raising `KeyError` when absent, in that order),
and defaults `score` to `None` and `highlighted` to `False` via `.get`. -/
def Word.init (word : WordDict) (frame_rate : Option ℚ) : Except String Word := do
  let start ← getKey word.start "start"
  let end_ ← getKey word.end_ "end"
  let text ← getKey word.word "word"
  Except.ok
    { start := start, end_ := end_, text := text, score := word.score,
      highlighted := word.highlighted.getD false, frame_rate := frame_rate,
      itt_start := none, itt_end := none }

/-- segments.py lines 35-42, `Word.convertToDictionary`. -/
def Word.convertToDictionary (w : Word) : WordDict :=
  { word := some w.text, start := some w.start, end_ := some w.end_,
    score := w.score, highlighted := some w.highlighted }

/-- The value `Word.__init__` produces from `w.convertToDictionary()`: all keys
are present, so no `KeyError` branch can fire (see `Word.init_convertToDictionary`). -/
def roundtripWord (frame_rate : Option ℚ) (w : Word) : Word :=
  { start := w.start, end_ := w.end_, text := w.text, score := w.score,
    highlighted := w.highlighted, frame_rate := frame_rate,
    itt_start := none, itt_end := none }

/-- segments.py lines 30-33, `Word.calculate_itt_time`: guarded by the Python
truthiness of `frame_rate` (`None` and `0` are falsy). -/
def Word.calculate_itt_time (w : Word) : Word :=
  match w.frame_rate with
  | none => w
  | some fr =>
    if fr = 0 then w
    else { w with itt_start := some (ITTTime.init w.start fr),
                  itt_end := some (ITTTime.init w.end_ fr) }

/-- segments.py, class `Segments` (fields set by `__init__`). -/
structure Segments where
  start : ℚ
  end_ : ℚ
  text : String
  words : List Word
  frame_rate : Option ℚ
  itt_start : Option ITTTime
  itt_end : Option ITTTime
deriving Repr, DecidableEq

/-- segments.py lines 45-52, `Segments.__init__`: reads `segment["start"]`,
`segment["end"]`, `segment["text"]`, `segment["words"]` in order (each raising
`KeyError` when absent) and builds a `Word` from every word mapping. -/
def Segments.init (segment : SegmentDict) (frame_rate : Option ℚ) :
    Except String Segments := do
  let start ← getKey segment.start "start"
  let end_ ← getKey segment.end_ "end"
  let text ← getKey segment.text "text"
  let wordDicts ← getKey segment.words "words"
  let words ← wordDicts.mapM (fun w => Word.init w frame_rate)
  Except.ok
    { start := start, end_ := end_, text := text, words := words,
      frame_rate := frame_rate, itt_start := none, itt_end := none }

/-- segments.py lines 69-74, `Segments.calculate_itt_times`: sets the segment's
own timecodes when `frame_rate` is truthy, and always recomputes each word's. -/
def Segments.calculate_itt_times (s : Segments) : Segments :=
  let s' :=
    match s.frame_rate with
    | none => s
    | some fr =>
      if fr = 0 then s
      else { s with itt_start := some (ITTTime.init s.start fr),
                    itt_end := some (ITTTime.init s.end_ fr) }
  { s' with words := s'.words.map Word.calculate_itt_time }

/-- segments.py lines 57-67, `Segments.generate_subsegments`: after
`calculate_itt_times`, for each index `idx` deep-copy the word list, set the
copy's `idx`-th `highlighted` flag, and build a fresh `Segments` from the
dictionary `{"start": word.start, "end": word.end, "text": self.text, "words":
[w.convertToDictionary() for w in newWords]}` with the same frame rate (every
key present, so the constructor cannot raise: `roundtripWord` is exactly the
word the constructor rebuilds), then compute its timecodes. -/
def Segments.generate_subsegments (s0 : Segments) : List Segments :=
  let s := s0.calculate_itt_times
  s.words.enum.map fun p =>
    let word := p.2
    let newWords := s.words.set p.1 { word with highlighted := true }
    let newSegment : Segments :=
      { start := word.start, end_ := word.end_, text := s.text,
        words := newWords.map (roundtripWord s.frame_rate),
        frame_rate := s.frame_rate, itt_start := none, itt_end := none }
    newSegment.calculate_itt_times

/-- segments.py lines 156-157, `createSegmentsList` (no frame rate passed, so
each `Segments` gets `frame_rate=None`). -/
def createSegmentsList (segments : List SegmentDict) : Except String (List Segments) :=
  segments.mapM (fun segment => Segments.init segment none)

/-- segments.py line 113: the `sameTime` test of `closeGapBetweenListOfSegments`,
comparing seconds, minutes and hours (not frames) of the previous segment's
end timecode and the current segment's start timecode. -/
def sameTimeB (pIttEnd cIttStart : Option ITTTime) : Bool :=
  let pe := pIttEnd.getD ITTTime.default
  let cs := cIttStart.getD ITTTime.default
  pe.seconds == cs.seconds && pe.minutes == cs.minutes && pe.hours == cs.hours

/-- segments.py lines 110-135, the effect of one iteration of the first loop of
`closeGapBetweenListOfSegments` on `previousSegment` (its `end`/`itt_end` are
the only fields of it the iteration writes). In the `sameTime` branch the code
first sets `previousSegment.itt_end.frames = currentSegment.itt_start.frames`
and `previousSegment.end = currentSegment.start`. -/
def bridgeEnd (gap : ℚ) (previousSegment currentSegment : Segments) : Segments :=
  if currentSegment.start - previousSegment.end_ < gap then
    if sameTimeB previousSegment.itt_end currentSegment.itt_start then
      { previousSegment with
        end_ := currentSegment.start,
        itt_end := some { (previousSegment.itt_end.getD ITTTime.default) with
                          frames := (currentSegment.itt_start.getD ITTTime.default).frames } }
    else
      let avgTime := (currentSegment.start + previousSegment.end_) / 2
      { previousSegment with
        end_ := avgTime,
        itt_end := some (ITTTime.init avgTime (currentSegment.frame_rate.getD 0)) }
  else previousSegment

/-- segments.py lines 110-135, the effect of the same iteration on
`currentSegment` (its `start`/`itt_start` are the only fields of it the
iteration writes). In the `sameTime` branch the code then assigns
`currentSegment.itt_start.frames = previousSegment.itt_end.frames` and
`currentSegment.start = previousSegment.end` — both right-hand sides were just
set from `currentSegment` itself, so the current segment's value is unchanged. -/
def bridgeStart (gap : ℚ) (previousSegment currentSegment : Segments) : Segments :=
  if currentSegment.start - previousSegment.end_ < gap then
    if sameTimeB previousSegment.itt_end currentSegment.itt_start then
      currentSegment
    else
      let avgTime := (currentSegment.start + previousSegment.end_) / 2
      { currentSegment with
        start := avgTime,
        itt_start := some (ITTTime.init avgTime (currentSegment.frame_rate.getD 0)) }
  else currentSegment

/-- segments.py lines 107-135: the first loop (`for idx in range(1, len(...))`)
of `closeGapBetweenListOfSegments`. Iteration `idx` writes only
`newSegments[idx-1].end/itt_end` (via `bridgeEnd`) and
`newSegments[idx].start/itt_start` (via `bridgeStart`), and reads only fields
no earlier iteration wrote, so the loop is this structural recursion carrying
the partially-updated current segment forward as the next `previousSegment`. -/
def pass1 (gap : ℚ) (previousSegment : Segments) : List Segments → List Segments
  | [] => [previousSegment]
  | currentSegment :: rest =>
    bridgeEnd gap previousSegment currentSegment ::
      pass1 gap (bridgeStart gap previousSegment currentSegment) rest

/-- The first loop of `closeGapBetweenListOfSegments` run on a whole list. -/
def pass1Run (gap : ℚ) : List Segments → List Segments
  | [] => []
  | s :: rest => pass1 gap s rest

/-- segments.py lines 138-152: the body of the post-fix loop for one segment.
The previous-neighbor borrow fires when `segment.start == segment.end`; the
next-neighbor borrow re-tests `segment.start == segment.end` AFTER the first
borrow may have replaced `start`. `prevOpt` is the already-processed previous
element of the list (the loop reads `newSegments[idx-1]` in its current state);
`nextOpt` is the not-yet-processed next element. -/
def pass2Step (prevOpt : Option Segments) (seg : Segments) (nextOpt : Option Segments) :
    Segments :=
  let seg1 :=
    match prevOpt with
    | some previousSegment =>
      if seg.start = seg.end_ then
        { seg with start := previousSegment.end_, itt_start := previousSegment.itt_end }
      else seg
    | none => seg
  match nextOpt with
  | some nextSegment =>
    if seg1.start = seg1.end_ then
      { seg1 with end_ := nextSegment.start, itt_end := nextSegment.itt_start }
    else seg1
  | none => seg1

/-- segments.py lines 138-152: the post-fix loop (`for idx in range(len(...))`)
of `closeGapBetweenListOfSegments`, threading the just-updated previous element. -/
def pass2 (prevOpt : Option Segments) : List Segments → List Segments
  | [] => []
  | seg :: rest =>
    let seg2 := pass2Step prevOpt seg rest.head?
    seg2 :: pass2 (some seg2) rest

/-- segments.py lines 103-154, `closeGapBetweenListOfSegments`: lists of length
at most one are returned as-is by the early `return segments` (line 105, no
copy is made); otherwise both loops run over the deep copy. -/
def closeGapBetweenListOfSegments (segments : List Segments) (gap : ℚ) : List Segments :=
  match segments with
  | [] => segments
  | [_] => segments
  | s :: rest => pass2 none (pass1 gap s rest)

/-- Whether `closeGapBetweenListOfSegments` allocates a new list for its result:
read off the branch structure of segments.py lines 104-106 — the early return
(`len(segments) <= 1`) hands back the caller's own list object, every other
input reaches `copy.deepcopy` and a freshly built list is returned. -/
def closeGapReturnsNewList (segments : List Segments) : Bool :=
  decide (1 < segments.length)

/-- What one pass-1 iteration guarantees for the pair it bridges, phrased on
the four boundary values the iteration reads (the previous segment's original
`end`/`itt_end` and the current segment's original `start`/`itt_start`):
at or above the threshold nothing changes; below it the two cues meet — at the
current cue's start when the timecodes agree on h/m/s (frame snap), at the
arithmetic mean otherwise. -/
def bridgedPairSpec (gap pEnd cStart : ℚ) (pIttEnd cIttStart : Option ITTTime)
    (p' c' : Segments) : Prop :=
  (¬ (cStart - pEnd < gap) →
    p'.end_ = pEnd ∧ p'.itt_end = pIttEnd ∧ c'.start = cStart ∧ c'.itt_start = cIttStart) ∧
  ((cStart - pEnd < gap) →
    p'.end_ = c'.start ∧
    (sameTimeB pIttEnd cIttStart = true → p'.end_ = cStart) ∧
    (sameTimeB pIttEnd cIttStart = false → p'.end_ = (cStart + pEnd) / 2))

/-- SRTWriter.py lines 65-76, the inner loop of
`SRTConverter.correct_missing_times`, processing one segment's word list
left-to-right and mutating it in place. `prev_word` is the previous word in
its already-repaired state (the carried argument); `next_word` is the next
word in its original state (`rest.head?`). A missing `start` gets
`prev_word['end'] if prev_word and 'end' in prev_word else (next_word['start']
if next_word and 'start' in next_word else 0)`; a missing `end` gets
`next_word['start'] if next_word and 'start' in next_word else (prev_word['end']
if prev_word and 'end' in prev_word else word['start'])`, where `word['start']`
is the possibly-just-filled value `start'` (always present by then). -/
def repairHead (prev_word : Option WordDict) (word : WordDict)
    (next_word : Option WordDict) : WordDict :=
  let start' := word.start.or
    (some (((prev_word.bind WordDict.end_).or (next_word.bind WordDict.start)).getD 0))
  let end' := word.end_.or
    (some (((next_word.bind WordDict.start).or (prev_word.bind WordDict.end_)).getD
      (start'.getD 0)))
  { word with start := start', end_ := end' }

/-- The loop itself: the repaired head becomes the next iteration's `prev_word`. -/
def repairAux : Option WordDict → List WordDict → List WordDict
  | _, [] => []
  | prev_word, word :: rest =>
    let word' := repairHead prev_word word rest.head?
    word' :: repairAux (some word') rest

/-- SRTWriter.py lines 61-76, `SRTConverter.correct_missing_times`: repairs
each segment's word list (`segment.get('words', [])`: a segment without a
`words` key is left alone) and returns the same segment list. -/
def correct_missing_times (segments : List SegmentDict) : List SegmentDict :=
  segments.map fun segment =>
    match segment.words with
    | none => segment
    | some words => { segment with words := some (repairAux none words) }

/-- The previous word's currently-stored `end` as seen when word `i` of a list
is being repaired: the (already repaired) element `i-1` of the output list, or
the carried `prev` for `i = 0`. -/
def prevEndOfAux (prev : Option WordDict) (out : List WordDict) : ℕ → Option ℚ
  | 0 => prev.bind WordDict.end_
  | j + 1 => out[j]?.bind WordDict.end_

/-- The previous word's currently-stored `end` for a whole-list repair (no
carried predecessor). -/
def prevEndOf (out : List WordDict) (i : ℕ) : Option ℚ := prevEndOfAux none out i

/-- The next word's (original) `start` as seen when word `i` is repaired. -/
def nextStartOf (ws : List WordDict) (i : ℕ) : Option ℚ := ws[i + 1]?.bind WordDict.start

/-- SRTWriter.py lines 373-375: `word["start"] += time_offset` and
`word["end"] += time_offset` (each read raises `KeyError` when absent). -/
def shiftWord (offset : ℚ) (w : WordDict) : Except String WordDict := do
  let s ← getKey w.start "start"
  let e ← getKey w.end_ "end"
  Except.ok { w with start := some (s + offset), end_ := some (e + offset) }

/-- SRTWriter.py lines 368-375: shift one segment and (when the `words` key is
present — the code iterates `segment.get("words", [])`) each of its words. -/
def shiftSegment (offset : ℚ) (segment : SegmentDict) : Except String SegmentDict := do
  let s ← getKey segment.start "start"
  let e ← getKey segment.end_ "end"
  let words' ←
    match segment.words with
    | none => Except.ok (none : Option (List WordDict))
    | some ws => do Except.ok (some (← ws.mapM (shiftWord offset)))
  Except.ok { segment with start := some (s + offset), end_ := some (e + offset),
                           words := words' }

/-- The value `shiftWord` produces when both keys are present. -/
def shiftWordTotal (offset : ℚ) (w : WordDict) : WordDict :=
  { w with start := some (w.start.getD 0 + offset), end_ := some (w.end_.getD 0 + offset) }

/-- The value `shiftSegment` produces when every required key is present. -/
def shiftSegmentTotal (offset : ℚ) (segment : SegmentDict) : SegmentDict :=
  { segment with
    start := some (segment.start.getD 0 + offset),
    end_ := some (segment.end_.getD 0 + offset),
    words := segment.words.map (List.map (shiftWordTotal offset)) }

/-- A word mapping with both timestamps present (so Python's `+=` cannot raise). -/
def WordDict.timedB (w : WordDict) : Bool := w.start.isSome && w.end_.isSome

/-- A segment mapping whose own timestamps and all word timestamps are present. -/
def SegmentDict.timedB (s : SegmentDict) : Bool :=
  s.start.isSome && s.end_.isSome && (s.words.getD []).all WordDict.timedB

/-- SRTWriter.py lines 358-381: the loop of
`SRTConverter.initialize_with_normalized_timestamps`. `index` is the
enumeration counter over ALL arrays (empty ones included), `elapsed` is
`total_elapsed_time`. An empty array is skipped without touching `elapsed`;
otherwise `time_offset = elapsed - segments[0]["start"]`, every segment is
shifted, and `elapsed` grows by `audio_lengths[index]` exactly when
`index < len(audio_lengths)` — otherwise it is left unchanged. -/
def normalizeLoop (audio_lengths : List ℚ) (index : ℕ) (elapsed : ℚ) :
    List (List SegmentDict) → Except String (List SegmentDict)
  | [] => Except.ok []
  | segments :: restArrays =>
    match segments with
    | [] => normalizeLoop audio_lengths (index + 1) elapsed restArrays
    | s0 :: _ => do
      let firstStart ← getKey s0.start "start"
      let time_offset := elapsed - firstStart
      let shifted ← segments.mapM (shiftSegment time_offset)
      let elapsed' :=
        match audio_lengths[index]? with
        | some d => elapsed + d
        | none => elapsed
      let restNorm ← normalizeLoop audio_lengths (index + 1) elapsed' restArrays
      Except.ok (shifted ++ restNorm)

/-- The grouped value `normalizeLoop` computes when every key is present: array
`k`'s shifted copy, one sublist per non-empty input array. -/
def normalizeTotal (audio_lengths : List ℚ) (index : ℕ) (elapsed : ℚ) :
    List (List SegmentDict) → List (List SegmentDict)
  | [] => []
  | segments :: restArrays =>
    match segments with
    | [] => normalizeTotal audio_lengths (index + 1) elapsed restArrays
    | s0 :: _ =>
      let time_offset := elapsed - s0.start.getD 0
      let elapsed' :=
        match audio_lengths[index]? with
        | some d => elapsed + d
        | none => elapsed
      segments.map (shiftSegmentTotal time_offset) ::
        normalizeTotal audio_lengths (index + 1) elapsed' restArrays

/-- The `start` of the first segment of an array (`segments[0]["start"]`). -/
def firstStartOf : List SegmentDict → ℚ
  | [] => 0
  | s :: _ => s.start.getD 0

/-- SRTWriter.py lines 344-384, `SRTConverter.initialize_with_normalized_timestamps`
(the Lean name is shortened): normalizes all arrays
starting from `total_elapsed_time = 0.0` and hands the flat list to the
`SRTConverter` constructor, which applies `correct_missing_times` to it. -/
def init_with_normalized_timestamps (segment_arrays : List (List SegmentDict))
    (audio_lengths : List ℚ) : Except String (List SegmentDict) :=
  (normalizeLoop audio_lengths 0 0 segment_arrays).map correct_missing_times

/-- One SRT cue as emitted by the SRT writers: its running entry index, its
start and end times (the numbers later rendered by `format_time`), and its
text. String assembly (`format_time`, `" --> "`, the joining with blank lines)
is injective presentation of these fields and is not re-modelled. -/
structure SrtCue where
  index : ℕ
  start : ℚ
  end_ : ℚ
  text : String
deriving Repr, DecidableEq

/-- SRTWriter.py lines 211-216, the inner loop of
`SRTConverter.to_srt_single_words` over one segment's words: the cue's start is
`word["start"]`, its end is `word["end"]` if `idx == len(words) - 1` and
`words[idx + 1]["start"]` otherwise, its text is `word["word"]`. -/
def segment_single_word_cues (words : List WordDict) : List (ℚ × ℚ × String) :=
  words.enum.map fun p =>
    (p.2.start.getD 0,
     if p.1 = words.length - 1 then p.2.end_.getD 0
     else (words[p.1 + 1]?.bind WordDict.start).getD 0,
     p.2.word.getD "")

/-- Python `str.split()` on spaces (used on `segment["text"]`). -/
def splitWS (s : String) : List String :=
  (s.split (fun c => c = ' ')).filter (fun t => decide (t ≠ ""))

/-- SRTWriter.py lines 181-194, the loop body of
`SRTConverter.to_srt_highlight_word` for one segment: the cue times are chosen
exactly as in `to_srt_single_words` (lines 185-186), and the text is the
space-join of the split segment text with token `idx` wrapped in a font tag. -/
def segment_highlight_cues (color : String) (segment : SegmentDict) :
    List (ℚ × ℚ × String) :=
  let split_text := splitWS (segment.text.getD "")
  let words := segment.words.getD []
  words.enum.map fun p =>
    (p.2.start.getD 0,
     if p.1 = words.length - 1 then p.2.end_.getD 0
     else (words[p.1 + 1]?.bind WordDict.start).getD 0,
     String.intercalate " "
       (split_text.set p.1
         ("<font color=\"" ++ color ++ "\">" ++ (split_text.getD p.1 "") ++ "</font>")))

/-- SRTWriter.py lines 199-219, `SRTConverter.to_srt_single_words`: one cue per
word across all segments, numbered from 1 by a single running counter. -/
def to_srt_single_words (segments : List SegmentDict) : List SrtCue :=
  ((segments.map (fun segment => segment_single_word_cues (segment.words.getD []))).flatten).enum.map
    fun p => { index := p.1 + 1, start := p.2.1, end_ := p.2.2.1, text := p.2.2.2 }

/-- SRTWriter.py lines 165-197, `SRTConverter.to_srt_highlight_word`: same cue
structure with the highlighted text. -/
def to_srt_highlight_word (color : String) (segments : List SegmentDict) : List SrtCue :=
  ((segments.map (segment_highlight_cues color)).flatten).enum.map
    fun p => { index := p.1 + 1, start := p.2.1, end_ := p.2.2.1, text := p.2.2.2 }

/-- The (start, end) time pairs of a cue list. -/
def cueTimes (cues : List SrtCue) : List (ℚ × ℚ) := cues.map fun c => (c.start, c.end_)

/-- Concrete gap-closer input, segment [0,1] with timecodes at 24 fps. -/
def cgSegA : Segments :=
  { start := 0, end_ := 1, text := "A", words := [], frame_rate := some 24,
    itt_start := some (ITTTime.init 0 24), itt_end := some (ITTTime.init 1 24) }

/-- Concrete gap-closer input, a zero-width segment [5,5] with timecodes. -/
def cgSegB : Segments :=
  { start := 5, end_ := 5, text := "B", words := [], frame_rate := some 24,
    itt_start := some (ITTTime.init 5 24), itt_end := some (ITTTime.init 5 24) }

/-- Concrete gap-closer input, segment [10,12] with timecodes. -/
def cgSegC : Segments :=
  { start := 10, end_ := 12, text := "C", words := [], frame_rate := some 24,
    itt_start := some (ITTTime.init 10 24), itt_end := some (ITTTime.init 12 24) }

/-- A minimal segment value for the gap closer's short-input behavior. -/
def cg1 : Segments :=
  { start := 0, end_ := 1, text := "A", words := [], frame_rate := none,
    itt_start := none, itt_end := none }

/-- The first word of the specification's round-trip example. -/
def exHello : WordDict :=
  { word := some "Hello", start := some (27/100), end_ := some (61/100),
    score := some (862/1000), highlighted := none }

/-- The second word of the specification's round-trip example. -/
def exWorld : WordDict :=
  { word := some "world.", start := some (69/100), end_ := some (1091/1000),
    score := some (779/1000), highlighted := none }

/-- The specification's round-trip example segment
`{start:0.27, end:1.632, text:" Hello world.", words:[Hello, world.]}`. -/
def exSegment : SegmentDict :=
  { start := some (27/100), end_ := some (1632/1000), text := some " Hello world.",
    words := some [exHello, exWorld] }

/-- Concrete stitcher input: a segment spanning [0,2]. -/
def stSegA : SegmentDict :=
  { start := some 0, end_ := some 2, text := some "Segment 1", words := some [] }

/-- Concrete stitcher input: a segment spanning [0,3]. -/
def stSegB : SegmentDict :=
  { start := some 0, end_ := some 3, text := some "Segment 2", words := some [] }

/-- A word that is already highlighted in its source segment. -/
def hlWord0 : Word :=
  { start := 0, end_ := 1, text := "a", score := none, highlighted := true,
    frame_rate := none, itt_start := none, itt_end := none }

/-- An unhighlighted word. -/
def hlWord1 : Word :=
  { start := 1, end_ := 2, text := "b", score := none, highlighted := false,
    frame_rate := none, itt_start := none, itt_end := none }

/-- A segment whose first word is already highlighted. -/
def hlSeg : Segments :=
  { start := 0, end_ := 2, text := "a b", words := [hlWord0, hlWord1],
    frame_rate := none, itt_start := none, itt_end := none }

/-- A word mapping with no `start` key. -/
def wd10 : WordDict :=
  { word := some "hi", start := none, end_ := some 1, score := none, highlighted := none }

/-- A segment mapping containing `wd10`. -/
def sd10 : SegmentDict :=
  { start := some 0, end_ := some 1, text := some "hi", words := some [wd10] }

/-- A word with a missing `end`. -/
def rw0 : WordDict :=
  { word := some "one", start := some 1, end_ := none, score := none, highlighted := none }

/-- A word with a missing `start`. -/
def rw1 : WordDict :=
  { word := some "two", start := none, end_ := some 3, score := none, highlighted := none }

/-- A segment whose words need timestamp repair. -/
def rSeg : SegmentDict :=
  { start := some 1, end_ := some 3, text := some "one two", words := some [rw0, rw1] }

/-! ## Arithmetic facts about the Python helpers -/

theorem pyint_intCast (n : ℤ) : pyint ((n : ℤ) : ℚ) = n := by
  unfold pyint
  split
  · rw [← Int.cast_neg, Int.floor_intCast]; ring
  · rw [Int.floor_intCast]

theorem pyint_of_nonneg {q : ℚ} (h : 0 ≤ q) : pyint q = ⌊q⌋ := if_neg (not_lt.mpr h)

theorem pymod_nonneg {b : ℚ} (hb : 0 < b) (a : ℚ) : 0 ≤ pymod a b := by
  unfold pymod
  have h1 : ((⌊a / b⌋ : ℤ) : ℚ) ≤ a / b := Int.floor_le _
  have h2 : b * ((⌊a / b⌋ : ℤ) : ℚ) ≤ b * (a / b) := mul_le_mul_of_nonneg_left h1 hb.le
  have h3 : b * (a / b) = a := by field_simp
  linarith

theorem pymod_pymod_3600_60 (t : ℚ) : pymod (pymod t 3600) 60 = pymod t 60 := by
  unfold pymod
  have h : (t - 3600 * ((⌊t / 3600⌋ : ℤ) : ℚ)) / 60 = t / 60 - ((60 * ⌊t / 3600⌋ : ℤ) : ℚ) := by
    push_cast; ring
  rw [h, Int.floor_sub_int]
  push_cast; ring

/-- C7 (confirmed): for every non-negative time and non-negative frame rate the
constructed `ITTTime` satisfies `hours = floor (t / 3600)`,
`minutes = floor ((t mod 3600) / 60)`, `seconds = floor (t mod 60)` and
`frame = floor ((t mod 1) * frameRate)` — truncation, never rounding up. -/
theorem timecode_truncates (t frameRate : ℚ) (_ht : 0 ≤ t) (hfr : 0 ≤ frameRate) :
    (ITTTime.init t frameRate).hours = ⌊t / 3600⌋ ∧
    (ITTTime.init t frameRate).minutes = ⌊pymod t 3600 / 60⌋ ∧
    (ITTTime.init t frameRate).seconds = ⌊pymod t 60⌋ ∧
    (ITTTime.init t frameRate).frames = ⌊pymod t 1 * frameRate⌋ := by
  unfold ITTTime.init pydivmod
  refine ⟨pyint_intCast _, pyint_intCast _, ?_, ?_⟩
  · show pyint (pymod (pymod t 3600) 60) = ⌊pymod t 60⌋
    rw [pyint_of_nonneg (pymod_nonneg (by norm_num) _), pymod_pymod_3600_60]
  · exact pyint_of_nonneg (mul_nonneg (pymod_nonneg one_pos _) hfr)

/-- C7 witness: `toTimecode(1.6325, 24)` has frame `floor (0.6325 * 24) = 15`,
not 16. -/
theorem timecode_truncates_witness :
    (0 : ℚ) ≤ 16325/10000 ∧ (ITTTime.init (16325/10000) 24).frames = 15 := by
  have h := timecode_truncates (16325/10000) 24 (by norm_num) (by norm_num)
  refine ⟨by norm_num, ?_⟩
  rw [h.2.2.2]
  norm_num [pymod]

/-! ## C10: the class constructors demand timestamps -/

theorem mapM_error_of_mem {α β : Type} (f : α → Except String β) :
    ∀ (l : List α) (x : α), x ∈ l → (∃ e, f x = Except.error e) →
      ∃ e, l.mapM f = Except.error e := by
  intro l
  induction l with
  | nil => intro x hx; cases hx
  | cons a as ih =>
    intro x hx hex
    cases hfa : f a with
    | error e' => exact ⟨e', by rw [List.mapM_cons, hfa]; rfl⟩
    | ok y =>
      rcases List.mem_cons.mp hx with rfl | hmem
      · obtain ⟨e, he⟩ := hex
        rw [hfa] at he
        cases he
      · obtain ⟨e2, he2⟩ := ih x hmem hex
        exact ⟨e2, by rw [List.mapM_cons, hfa, he2]; rfl⟩

/-- C10 (confirmed): a word mapping lacking `start` or `end` makes the `Word`
constructor raise `KeyError`, and the error propagates through the `Segments`
constructor and `createSegmentsList` — the class pipeline performs no
timestamp repair. -/
theorem word_constructor_requires_times :
    (∀ (w : WordDict) (fr : Option ℚ), w.start = none ∨ w.end_ = none →
      ∃ e, Word.init w fr = Except.error e) ∧
    (∀ (s : SegmentDict) (fr : Option ℚ) (ws : List WordDict) (w : WordDict),
      s.words = some ws → w ∈ ws → w.start = none ∨ w.end_ = none →
      ∃ e, Segments.init s fr = Except.error e) ∧
    (∀ (segs : List SegmentDict) (s : SegmentDict) (ws : List WordDict) (w : WordDict),
      s ∈ segs → s.words = some ws → w ∈ ws → w.start = none ∨ w.end_ = none →
      ∃ e, createSegmentsList segs = Except.error e) := by
  have h1 : ∀ (w : WordDict) (fr : Option ℚ), w.start = none ∨ w.end_ = none →
      ∃ e, Word.init w fr = Except.error e := by
    intro w fr h
    rcases h with h | h
    · exact ⟨"KeyError: " ++ "start", by unfold Word.init; rw [h]; rfl⟩
    · cases hs : w.start with
      | none => exact ⟨"KeyError: " ++ "start", by unfold Word.init; rw [hs]; rfl⟩
      | some v => exact ⟨"KeyError: " ++ "end", by unfold Word.init; rw [hs, h]; rfl⟩
  have h2 : ∀ (s : SegmentDict) (fr : Option ℚ) (ws : List WordDict) (w : WordDict),
      s.words = some ws → w ∈ ws → w.start = none ∨ w.end_ = none →
      ∃ e, Segments.init s fr = Except.error e := by
    intro s fr ws w hws hmem hkey
    cases hs : s.start with
    | none => exact ⟨"KeyError: " ++ "start", by unfold Segments.init; rw [hs]; rfl⟩
    | some a =>
      cases he : s.end_ with
      | none => exact ⟨"KeyError: " ++ "end", by unfold Segments.init; rw [hs, he]; rfl⟩
      | some b =>
        cases htx : s.text with
        | none =>
          exact ⟨"KeyError: " ++ "text", by unfold Segments.init; rw [hs, he, htx]; rfl⟩
        | some c =>
          obtain ⟨e, hmap⟩ :=
            mapM_error_of_mem (fun w => Word.init w fr) ws w hmem (h1 w fr hkey)
          refine ⟨e, ?_⟩
          unfold Segments.init
          rw [hs, he, htx, hws]
          show Except.bind (List.mapM (fun w => Word.init w fr) ws) _ = _
          rw [hmap]
          rfl
  refine ⟨h1, h2, ?_⟩
  intro segs s ws w hmem hws hwmem hkey
  exact mapM_error_of_mem (fun segment => Segments.init segment none) segs s hmem
    (h2 s none ws w hws hwmem hkey)

/-- C10 witness: a concrete word mapping with no `start` key fails to construct,
alone and through `createSegmentsList`. -/
theorem word_constructor_requires_times_witness :
    (∃ e, Word.init wd10 none = Except.error e) ∧
    (∃ e, createSegmentsList [sd10] = Except.error e) := by
  have h := word_constructor_requires_times
  exact ⟨h.1 wd10 none (Or.inl rfl),
    h.2.2 [sd10] sd10 [wd10] wd10 (by simp) rfl (by simp) (Or.inl rfl)⟩

/-! ## C6: what the gap closer returns for short and long inputs -/

/-- C6 counterexample: on a one-element sequence `closeGapBetweenListOfSegments`
takes the early-return branch — the returned value is the caller's own list
(`closeGapReturnsNewList = false` marks that no copy is allocated), refuting
"the returned value is a new sequence distinct from the input" for every input. -/
theorem closeGap_alias_counterexample :
    closeGapReturnsNewList [cg1] = false ∧
    closeGapBetweenListOfSegments [cg1] 1 = [cg1] := ⟨rfl, rfl⟩

/-- C6 (amended): the gap closer never mutates the caller's sequence (all
updates target the deep copy); inputs of length at most one are returned
untouched as the very same sequence, and only inputs with at least two
segments get a freshly allocated result. -/
theorem closeGap_copies_only_long_inputs :
    ∀ (segments : List Segments) (gap : ℚ),
      (segments.length ≤ 1 → closeGapBetweenListOfSegments segments gap = segments) ∧
      (1 < segments.length → closeGapReturnsNewList segments = true) := by
  intro segs gap
  constructor
  · intro h
    match segs with
    | [] => rfl
    | [s] => rfl
    | a :: b :: t => simp at h
  · intro h
    simp [closeGapReturnsNewList, h]

/-- C6 witness. -/
theorem closeGap_copies_only_long_inputs_witness :
    closeGapBetweenListOfSegments [cg1] 1 = [cg1] ∧
    closeGapReturnsNewList [cg1, cg1] = true :=
  ⟨(closeGap_copies_only_long_inputs [cg1] 1).1 (by simp),
   (closeGap_copies_only_long_inputs [cg1, cg1] 1).2 (by simp)⟩

/-! ## C2: single-word SRT cue boundaries -/

theorem cueTimes_enum (l : List (ℚ × ℚ × String)) :
    cueTimes (l.enum.map fun p =>
      { index := p.1 + 1, start := p.2.1, end_ := p.2.2.1, text := p.2.2.2 : SrtCue }) =
      l.map (fun t => (t.1, t.2.1)) := by
  unfold cueTimes
  rw [List.map_map]
  conv_rhs => rw [← List.enum_map_snd l, List.map_map]
  rfl

/-- C2 counterexample: on the specification's own round-trip example the last
word's cue ends at `1.091` (the word's own end), not at the segment end
`1.632` the claim demands. -/
theorem single_word_last_cue_uses_word_end :
    cueTimes (to_srt_single_words [exSegment]) = [(27/100, 69/100), (69/100, 1091/1000)] ∧
    cueTimes (to_srt_single_words [exSegment]) ≠ [(27/100, 69/100), (69/100, 1632/1000)] := by
  refine ⟨rfl, ?_⟩
  intro h
  rw [show cueTimes (to_srt_single_words [exSegment]) =
        [(27/100, 69/100), (69/100, 1091/1000)] from rfl] at h
  simp only [List.cons.injEq, Prod.mk.injEq] at h
  norm_num at h

/-- C2 (amended): each cue emitted per word starts at that word's start and
ends at the next word's start, except the last word of a segment, whose cue
ends at that word's OWN end (not the segment's end); `to_srt_highlight_word`
chooses exactly the same boundaries. -/
theorem single_word_cue_boundaries :
    (∀ (segments : List SegmentDict),
      cueTimes (to_srt_single_words segments) =
        (segments.map (fun segment =>
          (segment_single_word_cues (segment.words.getD [])).map
            (fun t => (t.1, t.2.1)))).flatten) ∧
    (∀ (ws : List WordDict) (i : ℕ) (w nxt : WordDict),
      ws[i]? = some w → ws[i + 1]? = some nxt →
      ((segment_single_word_cues ws)[i]?).map (fun t => (t.1, t.2.1)) =
        some (w.start.getD 0, nxt.start.getD 0)) ∧
    (∀ (ws : List WordDict) (i : ℕ) (w : WordDict),
      ws[i]? = some w → i = ws.length - 1 →
      ((segment_single_word_cues ws)[i]?).map (fun t => (t.1, t.2.1)) =
        some (w.start.getD 0, w.end_.getD 0)) ∧
    (∀ (color : String) (segments : List SegmentDict),
      cueTimes (to_srt_highlight_word color segments) =
        cueTimes (to_srt_single_words segments)) := by
  have hflat : ∀ (segments : List SegmentDict),
      cueTimes (to_srt_single_words segments) =
        (segments.map (fun segment =>
          (segment_single_word_cues (segment.words.getD [])).map
            (fun t => (t.1, t.2.1)))).flatten := by
    intro segments
    unfold to_srt_single_words
    rw [cueTimes_enum, List.map_flatten, List.map_map]
    rfl
  refine ⟨hflat, ?_, ?_, ?_⟩
  · intro ws i w nxt hw hnxt
    have hi1 : i + 1 < ws.length := (List.getElem?_eq_some.mp hnxt).1
    have hne : ¬ (i = ws.length - 1) := by omega
    unfold segment_single_word_cues
    rw [List.getElem?_map, List.getElem?_enum, hw]
    show (some (w.start.getD 0,
      if i = ws.length - 1 then w.end_.getD 0
      else (ws[i + 1]?.bind WordDict.start).getD 0) : Option (ℚ × ℚ)) = _
    rw [if_neg hne, hnxt]
    rfl
  · intro ws i w hw hlast
    unfold segment_single_word_cues
    rw [List.getElem?_map, List.getElem?_enum, hw]
    show (some (w.start.getD 0,
      if i = ws.length - 1 then w.end_.getD 0
      else (ws[i + 1]?.bind WordDict.start).getD 0) : Option (ℚ × ℚ)) = _
    rw [if_pos hlast]
  · intro color segments
    have hflat2 : cueTimes (to_srt_highlight_word color segments) =
        (segments.map (fun segment =>
          (segment_highlight_cues color segment).map (fun t => (t.1, t.2.1)))).flatten := by
      unfold to_srt_highlight_word
      rw [cueTimes_enum, List.map_flatten, List.map_map]
      rfl
    rw [hflat2, hflat segments]
    congr 1
    apply List.map_congr_left
    intro segment _
    unfold segment_highlight_cues segment_single_word_cues
    rw [List.map_map, List.map_map]
    rfl

/-- C2 witness: on the example words, cue 1 spans [0.27, 0.69] (end borrowed
from the next word's start) and cue 2 spans [0.69, 1.091] (the last word's own
end). -/
theorem single_word_cue_boundaries_witness :
    ((segment_single_word_cues [exHello, exWorld])[0]?).map (fun t => (t.1, t.2.1)) =
      some (27/100, 69/100) ∧
    ((segment_single_word_cues [exHello, exWorld])[1]?).map (fun t => (t.1, t.2.1)) =
      some (69/100, 1091/1000) := by
  have h := single_word_cue_boundaries
  constructor
  · have := h.2.1 [exHello, exWorld] 0 exHello exWorld rfl rfl
    simpa [exHello, exWorld] using this
  · have := h.2.2.1 [exHello, exWorld] 1 exWorld rfl (by simp)
    simpa [exHello, exWorld] using this

/-! ## C9: the subsegment expander -/

theorem calculate_itt_time_preserves (w : Word) :
    (w.calculate_itt_time).start = w.start ∧ (w.calculate_itt_time).end_ = w.end_ ∧
    (w.calculate_itt_time).text = w.text ∧ (w.calculate_itt_time).score = w.score ∧
    (w.calculate_itt_time).highlighted = w.highlighted ∧
    (w.calculate_itt_time).frame_rate = w.frame_rate := by
  obtain ⟨a, b, c, d, e, fr, g1, g2⟩ := w
  cases fr with
  | none => exact ⟨rfl, rfl, rfl, rfl, rfl, rfl⟩
  | some v => by_cases h : v = 0 <;> simp [Word.calculate_itt_time, h]

theorem calculate_itt_times_preserves (s : Segments) :
    (s.calculate_itt_times).start = s.start ∧ (s.calculate_itt_times).end_ = s.end_ ∧
    (s.calculate_itt_times).text = s.text ∧
    (s.calculate_itt_times).frame_rate = s.frame_rate ∧
    (s.calculate_itt_times).words = s.words.map Word.calculate_itt_time := by
  obtain ⟨a, b, c, ws, fr, g1, g2⟩ := s
  cases fr with
  | none => exact ⟨rfl, rfl, rfl, rfl, rfl⟩
  | some v => by_cases h : v = 0 <;> simp [Segments.calculate_itt_times, h]

theorem generate_subsegments_getElem (s : Segments) (i : ℕ) (w : Word)
    (hw : s.words[i]? = some w) :
    (s.generate_subsegments)[i]? = some (Segments.calculate_itt_times
      { start := (w.calculate_itt_time).start,
        end_ := (w.calculate_itt_time).end_,
        text := (s.calculate_itt_times).text,
        words := ((s.calculate_itt_times).words.set i
          { w.calculate_itt_time with highlighted := true }).map
          (roundtripWord (s.calculate_itt_times).frame_rate),
        frame_rate := (s.calculate_itt_times).frame_rate,
        itt_start := none, itt_end := none }) := by
  have hwords := (calculate_itt_times_preserves s).2.2.2.2
  have hw1 : (s.calculate_itt_times).words[i]? = some (w.calculate_itt_time) := by
    rw [hwords, List.getElem?_map, hw]; rfl
  simp only [Segments.generate_subsegments]
  rw [List.getElem?_map, List.getElem?_enum, hw1]
  rfl

/-- C9 counterexample: a source segment whose first word is already highlighted
produces a second subsegment with TWO highlighted words — the deep copy keeps
existing flags, refuting "exactly one word (the i-th) with highlighted true". -/
theorem generate_subsegments_keeps_existing_highlights :
    ((hlSeg.generate_subsegments)[1]?).map (fun t => t.words.map Word.highlighted) =
      some [true, true] ∧
    ((hlSeg.generate_subsegments)[1]?).map (fun t => t.words.map Word.highlighted) ≠
      some [false, true] := by
  refine ⟨rfl, ?_⟩
  intro h
  rw [show ((hlSeg.generate_subsegments)[1]?).map (fun t => t.words.map Word.highlighted) =
    some [true, true] from rfl] at h
  simp at h

/-- C9 (amended): for a Segment with N words, `generate_subsegments` returns
exactly N Segments; the i-th spans the i-th word's interval, carries the
segment text, and holds copies of all N words in which the i-th word's
`highlighted` flag is true and every other word keeps its source flag (so
exactly one word is highlighted whenever no source word already was). -/
theorem generate_subsegments_spec (s : Segments) :
    (s.generate_subsegments).length = s.words.length ∧
    ∀ (i : ℕ) (w : Word), s.words[i]? = some w →
      ∃ t : Segments, (s.generate_subsegments)[i]? = some t ∧
        t.start = w.start ∧ t.end_ = w.end_ ∧ t.text = s.text ∧
        t.words.length = s.words.length ∧
        ∀ (j : ℕ) (wj : Word), s.words[j]? = some wj →
          ∃ u : Word, t.words[j]? = some u ∧ u.text = wj.text ∧ u.start = wj.start ∧
            u.end_ = wj.end_ ∧ u.score = wj.score ∧
            u.highlighted = (decide (j = i) || wj.highlighted) := by
  have hwords := (calculate_itt_times_preserves s).2.2.2.2
  constructor
  · simp only [Segments.generate_subsegments, List.length_map, List.enum_length, hwords]
  · intro i w hw
    have hi : i < s.words.length := (List.getElem?_eq_some.mp hw).1
    have hilen : i < (s.calculate_itt_times).words.length := by
      rw [hwords, List.length_map]; exact hi
    refine ⟨_, generate_subsegments_getElem s i w hw, ?_, ?_, ?_, ?_, ?_⟩
    · rw [(calculate_itt_times_preserves _).1]
      exact (calculate_itt_time_preserves w).1
    · rw [(calculate_itt_times_preserves _).2.1]
      exact (calculate_itt_time_preserves w).2.1
    · rw [(calculate_itt_times_preserves _).2.2.1]
      exact (calculate_itt_times_preserves s).2.2.1
    · rw [(calculate_itt_times_preserves _).2.2.2.2]
      simp [hwords]
    · intro j wj hwj
      rw [(calculate_itt_times_preserves _).2.2.2.2]
      simp only [List.getElem?_map]
      by_cases hij : j = i
      · subst hij
        have hww : wj = w := by
          rw [hw] at hwj; exact (Option.some.injEq _ _).mp hwj.symm ▸ rfl
        have hset : ((s.calculate_itt_times).words.set j
            { w.calculate_itt_time with highlighted := true })[j]? =
            some { w.calculate_itt_time with highlighted := true } :=
          List.getElem?_set_self (by rwa [hwords, List.length_map])
        rw [hset]
        refine ⟨_, rfl, ?_, ?_, ?_, ?_, ?_⟩
        · show ((roundtripWord _ _).calculate_itt_time).text = wj.text
          rw [(calculate_itt_time_preserves _).2.2.1]
          show w.calculate_itt_time.text = wj.text
          rw [(calculate_itt_time_preserves _).2.2.1, hww]
        · show ((roundtripWord _ _).calculate_itt_time).start = wj.start
          rw [(calculate_itt_time_preserves _).1]
          show w.calculate_itt_time.start = wj.start
          rw [(calculate_itt_time_preserves _).1, hww]
        · show ((roundtripWord _ _).calculate_itt_time).end_ = wj.end_
          rw [(calculate_itt_time_preserves _).2.1]
          show w.calculate_itt_time.end_ = wj.end_
          rw [(calculate_itt_time_preserves _).2.1, hww]
        · show ((roundtripWord _ _).calculate_itt_time).score = wj.score
          rw [(calculate_itt_time_preserves _).2.2.2.1]
          show w.calculate_itt_time.score = wj.score
          rw [(calculate_itt_time_preserves _).2.2.2.1, hww]
        · show ((roundtripWord _ _).calculate_itt_time).highlighted = _
          rw [(calculate_itt_time_preserves _).2.2.2.2.1]
          simp [roundtripWord]
      · have hset : ((s.calculate_itt_times).words.set i
            { w.calculate_itt_time with highlighted := true })[j]? =
            (s.calculate_itt_times).words[j]? :=
          List.getElem?_set_ne (fun h => hij h.symm)
        have hwj1 : (s.calculate_itt_times).words[j]? = some (wj.calculate_itt_time) := by
          rw [hwords, List.getElem?_map, hwj]; rfl
        rw [hset, hwj1]
        refine ⟨_, rfl, ?_, ?_, ?_, ?_, ?_⟩
        · show ((roundtripWord _ _).calculate_itt_time).text = wj.text
          rw [(calculate_itt_time_preserves _).2.2.1]
          show wj.calculate_itt_time.text = wj.text
          rw [(calculate_itt_time_preserves _).2.2.1]
        · show ((roundtripWord _ _).calculate_itt_time).start = wj.start
          rw [(calculate_itt_time_preserves _).1]
          show wj.calculate_itt_time.start = wj.start
          rw [(calculate_itt_time_preserves _).1]
        · show ((roundtripWord _ _).calculate_itt_time).end_ = wj.end_
          rw [(calculate_itt_time_preserves _).2.1]
          show wj.calculate_itt_time.end_ = wj.end_
          rw [(calculate_itt_time_preserves _).2.1]
        · show ((roundtripWord _ _).calculate_itt_time).score = wj.score
          rw [(calculate_itt_time_preserves _).2.2.2.1]
          show wj.calculate_itt_time.score = wj.score
          rw [(calculate_itt_time_preserves _).2.2.2.1]
        · show ((roundtripWord _ _).calculate_itt_time).highlighted = _
          rw [(calculate_itt_time_preserves _).2.2.2.2.1]
          show wj.calculate_itt_time.highlighted = _
          rw [(calculate_itt_time_preserves _).2.2.2.2.1]
          simp [hij]

/-- C9 witness. -/
theorem generate_subsegments_spec_witness :
    (hlSeg.generate_subsegments).length = 2 ∧
    ∃ t, (hlSeg.generate_subsegments)[0]? = some t ∧ t.start = 0 ∧ t.end_ = 1 := by
  obtain ⟨hlen, hall⟩ := generate_subsegments_spec hlSeg
  obtain ⟨t, ht, hs, he, _⟩ := hall 0 hlWord0 rfl
  exact ⟨hlen, t, ht, hs, he⟩

/-! ## C8: timestamp repair fallback rules -/

theorem prevEndOfAux_cons (prev : Option WordDict) (hd : WordDict)
    (out : List WordDict) (j : ℕ) :
    prevEndOfAux prev (hd :: out) (j + 1) = prevEndOfAux (some hd) out j := by
  cases j with
  | zero => simp [prevEndOfAux]
  | succ k => simp [prevEndOfAux]

theorem nextStartOf_cons (hd : WordDict) (rest : List WordDict) (j : ℕ) :
    nextStartOf (hd :: rest) (j + 1) = nextStartOf rest j := by
  simp [nextStartOf]

theorem repairAux_length (ws : List WordDict) :
    ∀ (prev : Option WordDict), (repairAux prev ws).length = ws.length := by
  induction ws with
  | nil => intro prev; rfl
  | cons w rest ih => intro prev; simp [repairAux, ih]

theorem repairAux_getElem (ws : List WordDict) :
    ∀ (prev : Option WordDict) (i : ℕ) (w : WordDict), ws[i]? = some w →
    ∃ w' : WordDict, (repairAux prev ws)[i]? = some w' ∧
      w'.word = w.word ∧ w'.score = w.score ∧ w'.highlighted = w.highlighted ∧
      w'.start = w.start.or (some
        (((prevEndOfAux prev (repairAux prev ws) i).or (nextStartOf ws i)).getD 0)) ∧
      w'.end_ = w.end_.or (some
        (((nextStartOf ws i).or (prevEndOfAux prev (repairAux prev ws) i)).getD
          (w'.start.getD 0))) := by
  induction ws with
  | nil => intro prev i w h; simp at h
  | cons w0 rest ih =>
    intro prev i w h
    have hstep : repairAux prev (w0 :: rest) =
        repairHead prev w0 rest.head? ::
          repairAux (some (repairHead prev w0 rest.head?)) rest := rfl
    match i with
    | 0 =>
      rw [List.getElem?_cons_zero] at h
      injection h with h
      subst h
      refine ⟨repairHead prev w0 rest.head?, by rw [hstep, List.getElem?_cons_zero], rfl, rfl, rfl, ?_, ?_⟩
      · show (repairHead prev w0 rest.head?).start = _
        simp only [repairHead, prevEndOfAux, nextStartOf, List.head?_eq_getElem?,
          List.getElem?_cons_succ]
      · show (repairHead prev w0 rest.head?).end_ = _
        simp only [repairHead, prevEndOfAux, nextStartOf, List.head?_eq_getElem?,
          List.getElem?_cons_succ]
    | j + 1 =>
      rw [List.getElem?_cons_succ] at h
      obtain ⟨w', hw', h1, h2, h3, h4, h5⟩ :=
        ih (some (repairHead prev w0 rest.head?)) j w h
      refine ⟨w', ?_, h1, h2, h3, ?_, ?_⟩
      · rw [hstep, List.getElem?_cons_succ]; exact hw'
      · rw [hstep, prevEndOfAux_cons, nextStartOf_cons]; exact h4
      · rw [hstep, prevEndOfAux_cons, nextStartOf_cons]; exact h5

/-- C8 (confirmed): processing each word list left-to-right, a word missing
`start` receives the previous word's currently-stored `end` if present, else
the next word's (original) `start` if present, else 0; a word missing `end`
receives the next word's `start` if present, else the previous word's
currently-stored `end` if present, else the word's own possibly-just-filled
`start`; no word or segment is removed. -/
theorem repair_fallback_rules (segments : List SegmentDict) :
    (correct_missing_times segments).length = segments.length ∧
    ∀ (k : ℕ) (s : SegmentDict), segments[k]? = some s →
      ∃ s' : SegmentDict, (correct_missing_times segments)[k]? = some s' ∧
        s'.start = s.start ∧ s'.end_ = s.end_ ∧ s'.text = s.text ∧
        (s.words = none → s'.words = none) ∧
        ∀ (ws : List WordDict), s.words = some ws →
          s'.words = some (repairAux none ws) ∧
          (repairAux none ws).length = ws.length ∧
          ∀ (i : ℕ) (w : WordDict), ws[i]? = some w →
            ∃ w' : WordDict, (repairAux none ws)[i]? = some w' ∧
              w'.word = w.word ∧
              w'.start = w.start.or (some
                (((prevEndOf (repairAux none ws) i).or (nextStartOf ws i)).getD 0)) ∧
              w'.end_ = w.end_.or (some
                (((nextStartOf ws i).or (prevEndOf (repairAux none ws) i)).getD
                  (w'.start.getD 0))) := by
  constructor
  · simp [correct_missing_times]
  · intro k s hk
    have hmap : (correct_missing_times segments)[k]? =
        some (match s.words with
          | none => s
          | some words => { s with words := some (repairAux none words) }) := by
      unfold correct_missing_times
      rw [List.getElem?_map, hk]
      rfl
    cases hws : s.words with
    | none =>
      refine ⟨s, ?_, rfl, rfl, rfl, fun _ => hws, ?_⟩
      · rw [hmap, hws]
      · intro ws hws2
        exact Option.noConfusion hws2
    | some ws0 =>
      refine ⟨{ s with words := some (repairAux none ws0) }, ?_, rfl, rfl, rfl, ?_, ?_⟩
      · rw [hmap, hws]
      · intro hnone
        exact Option.noConfusion hnone
      · intro ws hws2
        injection hws2 with hws2
        subst hws2
        refine ⟨rfl, repairAux_length ws0 none, ?_⟩
        intro i w hi
        obtain ⟨w', h1, h2, _, _, h5, h6⟩ := repairAux_getElem ws0 none i w hi
        exact ⟨w', h1, h2, h5, h6⟩

/-- C8 witness: in a two-word segment where word 0 lacks `end` and word 1 lacks
`start`, word 1's `start` is filled from word 0's repaired `end`. -/
theorem repair_fallback_rules_witness :
    (correct_missing_times [rSeg]).length = 1 ∧
    ∃ w' : WordDict, (repairAux none [rw0, rw1])[1]? = some w' ∧ w'.start = some 1 := by
  obtain ⟨hlen, hk⟩ := repair_fallback_rules [rSeg]
  obtain ⟨s', _, _, _, _, _, hws⟩ := hk 0 rSeg rfl
  obtain ⟨_, _, hi⟩ := hws [rw0, rw1] rfl
  obtain ⟨w', hw', _, hstart, _⟩ := hi 1 rw1 rfl
  refine ⟨hlen, w', hw', ?_⟩
  rw [hstart]
  rfl

/-! ## C3 and C5: the timeline stitcher -/

theorem ok_bind {α β : Type} (a : α) (f : α → Except String β) :
    (Except.ok a : Except String α) >>= f = f a := rfl

theorem shiftWord_timed (off : ℚ) (w : WordDict) (h : w.timedB = true) :
    shiftWord off w = Except.ok (shiftWordTotal off w) := by
  cases hb : w.start with
  | none => simp [WordDict.timedB, hb] at h
  | some sv =>
    cases hc : w.end_ with
    | none => simp [WordDict.timedB, hb, hc] at h
    | some ev =>
      unfold shiftWord shiftWordTotal
      rw [hb, hc]
      rfl

theorem mapM_shiftWord (off : ℚ) (ws : List WordDict) (h : ∀ w ∈ ws, w.timedB = true) :
    ws.mapM (shiftWord off) = Except.ok (ws.map (shiftWordTotal off)) := by
  induction ws with
  | nil => rfl
  | cons w rest ih =>
    rw [List.mapM_cons, shiftWord_timed off w (h w (by simp)),
      ih (fun x hx => h x (by simp [hx]))]
    rfl

theorem shiftSegment_timed (off : ℚ) (s : SegmentDict) (h : s.timedB = true) :
    shiftSegment off s = Except.ok (shiftSegmentTotal off s) := by
  cases hb : s.start with
  | none => simp [SegmentDict.timedB, hb] at h
  | some sv =>
    cases hc : s.end_ with
    | none => simp [SegmentDict.timedB, hb, hc] at h
    | some ev =>
      cases hw : s.words with
      | none =>
        unfold shiftSegment shiftSegmentTotal
        rw [hb, hc, hw]
        rfl
      | some ws =>
        have hws : ∀ w ∈ ws, w.timedB = true := by
          have h2 := h
          simp [SegmentDict.timedB, hb, hc, hw, List.all_eq_true] at h2
          exact h2
        unfold shiftSegment shiftSegmentTotal
        rw [hb, hc, hw]
        rw [show getKey (some sv) "start" = (Except.ok sv : Except String ℚ) from rfl,
          show getKey (some ev) "end" = (Except.ok ev : Except String ℚ) from rfl]
        simp only [ok_bind]
        rw [mapM_shiftWord off ws hws]
        simp only [ok_bind]
        rfl

theorem mapM_shiftSegment (off : ℚ) (segs : List SegmentDict)
    (h : ∀ s ∈ segs, s.timedB = true) :
    segs.mapM (shiftSegment off) = Except.ok (segs.map (shiftSegmentTotal off)) := by
  induction segs with
  | nil => rfl
  | cons s rest ih =>
    rw [List.mapM_cons, shiftSegment_timed off s (h s (by simp)),
      ih (fun x hx => h x (by simp [hx]))]
    rfl

theorem shiftSegmentTotal_timed (off : ℚ) (s : SegmentDict) :
    (shiftSegmentTotal off s).timedB = true := by
  cases hw : s.words with
  | none => simp [SegmentDict.timedB, shiftSegmentTotal, hw]
  | some ws =>
    simp [SegmentDict.timedB, shiftSegmentTotal, hw, List.all_eq_true, WordDict.timedB,
      shiftWordTotal]

theorem repairHead_timed (prev next : Option WordDict) (w : WordDict)
    (h : w.timedB = true) : repairHead prev w next = w := by
  obtain ⟨a, b, c, d, e⟩ := w
  cases b with
  | none => simp [WordDict.timedB] at h
  | some sv =>
    cases c with
    | none => simp [WordDict.timedB] at h
    | some ev => rfl

theorem repairAux_timed_id (ws : List WordDict) (h : ∀ w ∈ ws, w.timedB = true) :
    ∀ prev, repairAux prev ws = ws := by
  induction ws with
  | nil => intro prev; rfl
  | cons w rest ih =>
    intro prev
    rw [show repairAux prev (w :: rest) = repairHead prev w rest.head? ::
      repairAux (some (repairHead prev w rest.head?)) rest from rfl]
    rw [repairHead_timed prev rest.head? w (h w (by simp))]
    rw [ih (fun x hx => h x (by simp [hx])) (some w)]

theorem correct_missing_times_timed_id (segs : List SegmentDict)
    (h : ∀ s ∈ segs, s.timedB = true) : correct_missing_times segs = segs := by
  unfold correct_missing_times
  conv_rhs => rw [← List.map_id segs]
  apply List.map_congr_left
  intro s hs
  cases hw : s.words with
  | none => rfl
  | some ws =>
    show { s with words := some (repairAux none ws) } = id s
    have hall : ∀ w ∈ ws, w.timedB = true := by
      have h2 := h s hs
      simp [SegmentDict.timedB, hw, List.all_eq_true] at h2
      exact h2.2
    rw [repairAux_timed_id ws hall none]
    show { s with words := some ws } = id s
    rw [← hw]
    rfl

theorem normalizeLoop_ok (arrays : List (List SegmentDict)) :
    ∀ (lens : List ℚ) (idx : ℕ) (elapsed : ℚ),
      (∀ a ∈ arrays, ∀ s ∈ a, s.timedB = true) →
      normalizeLoop lens idx elapsed arrays =
        Except.ok (normalizeTotal lens idx elapsed arrays).flatten := by
  induction arrays with
  | nil => intro lens idx elapsed h; rfl
  | cons a rest ih =>
    intro lens idx elapsed h
    cases a with
    | nil =>
      show normalizeLoop lens (idx + 1) elapsed rest = _
      rw [ih lens (idx + 1) elapsed (fun x hx => h x (by simp [hx]))]
      rfl
    | cons s0 tail =>
      have hs0 : s0.timedB = true := h (s0 :: tail) (by simp) s0 (by simp)
      cases hb : s0.start with
      | none => simp [SegmentDict.timedB, hb] at hs0
      | some v =>
        simp only [normalizeLoop, normalizeTotal]
        rw [hb]
        rw [show getKey (some v) "start" = (Except.ok v : Except String ℚ) from rfl]
        rw [ok_bind]
        show Except.bind ((s0 :: tail).mapM (shiftSegment (elapsed - v))) _ = _
        rw [mapM_shiftSegment (elapsed - v) (s0 :: tail) (h (s0 :: tail) (by simp))]
        show Except.bind (normalizeLoop lens (idx + 1) _ rest) _ = _
        rw [ih lens (idx + 1) _ (fun x hx => h x (by simp [hx]))]
        rfl

theorem normalizeTotal_length (arrays : List (List SegmentDict)) :
    ∀ (lens : List ℚ) (idx : ℕ) (elapsed : ℚ), (∀ a ∈ arrays, a ≠ []) →
      (normalizeTotal lens idx elapsed arrays).length = arrays.length := by
  induction arrays with
  | nil => intro lens idx elapsed _; rfl
  | cons a0 rest ih =>
    intro lens idx elapsed hne
    obtain ⟨s0, tail, rfl⟩ : ∃ s0 t, a0 = s0 :: t := by
      cases a0 with
      | nil => exact absurd rfl (hne [] (by simp))
      | cons x xs => exact ⟨x, xs, rfl⟩
    rw [show normalizeTotal lens idx elapsed ((s0 :: tail) :: rest) =
      ((s0 :: tail).map (shiftSegmentTotal (elapsed - s0.start.getD 0))) ::
        normalizeTotal lens (idx + 1)
          (match lens[idx]? with | some d => elapsed + d | none => elapsed) rest from rfl]
    rw [List.length_cons, ih lens (idx + 1) _ (fun x hx => hne x (by simp [hx])),
      List.length_cons]

theorem normalizeTotal_timed (arrays : List (List SegmentDict)) :
    ∀ (lens : List ℚ) (idx : ℕ) (elapsed : ℚ) (s : SegmentDict),
      s ∈ (normalizeTotal lens idx elapsed arrays).flatten → s.timedB = true := by
  induction arrays with
  | nil => intro lens idx elapsed s hs; simp [normalizeTotal] at hs
  | cons a0 rest ih =>
    intro lens idx elapsed s hs
    cases a0 with
    | nil => exact ih lens (idx + 1) elapsed s hs
    | cons s0 tail =>
      rw [show normalizeTotal lens idx elapsed ((s0 :: tail) :: rest) =
        ((s0 :: tail).map (shiftSegmentTotal (elapsed - s0.start.getD 0))) ::
          normalizeTotal lens (idx + 1)
            (match lens[idx]? with | some d => elapsed + d | none => elapsed) rest from rfl,
        List.flatten_cons] at hs
      rcases List.mem_append.mp hs with hmem | hmem
      · obtain ⟨x, _, rfl⟩ := List.mem_map.mp hmem
        exact shiftSegmentTotal_timed _ x
      · exact ih lens (idx + 1) _ s hmem

theorem normalizeTotal_getElem (arrays : List (List SegmentDict)) :
    ∀ (lens : List ℚ) (idx : ℕ) (elapsed : ℚ),
      (∀ a ∈ arrays, a ≠ []) → idx + arrays.length ≤ lens.length →
      ∀ (k : ℕ) (a : List SegmentDict), arrays[k]? = some a →
        (normalizeTotal lens idx elapsed arrays)[k]? =
          some (a.map (shiftSegmentTotal
            (elapsed + ((lens.drop idx).take k).sum - firstStartOf a))) := by
  induction arrays with
  | nil => intro lens idx elapsed hne hlen k a hk; simp at hk
  | cons a0 rest ih =>
    intro lens idx elapsed hne hlen k a hk
    obtain ⟨s0, tail, rfl⟩ : ∃ s0 t, a0 = s0 :: t := by
      cases a0 with
      | nil => exact absurd rfl (hne [] (by simp))
      | cons x xs => exact ⟨x, xs, rfl⟩
    have hstep : normalizeTotal lens idx elapsed ((s0 :: tail) :: rest) =
        ((s0 :: tail).map (shiftSegmentTotal (elapsed - s0.start.getD 0))) ::
          normalizeTotal lens (idx + 1)
            (match lens[idx]? with | some d => elapsed + d | none => elapsed) rest := rfl
    have hidx : idx < lens.length := by
      simp only [List.length_cons] at hlen
      omega
    cases k with
    | zero =>
      rw [List.getElem?_cons_zero] at hk
      injection hk with hk
      subst hk
      have hoff : elapsed + ((lens.drop idx).take 0).sum - firstStartOf (s0 :: tail) =
          elapsed - s0.start.getD 0 := by
        simp [firstStartOf]
      rw [hstep, List.getElem?_cons_zero, hoff]
    | succ j =>
      rw [List.getElem?_cons_succ] at hk
      have hlen' : (idx + 1) + rest.length ≤ lens.length := by
        simp only [List.length_cons] at hlen
        omega
      rw [hstep, List.getElem?_cons_succ,
        ih lens (idx + 1) _ (fun x hx => hne x (by simp [hx])) hlen' j a hk]
      have hmatch : (match lens[idx]? with | some d => elapsed + d | none => elapsed) =
          elapsed + lens[idx] := by
        rw [List.getElem?_eq_getElem hidx]
      have hdrop : lens.drop idx = lens[idx] :: lens.drop (idx + 1) :=
        List.drop_eq_getElem_cons hidx
      have hoff : (match lens[idx]? with | some d => elapsed + d | none => elapsed)
            + ((lens.drop (idx + 1)).take j).sum - firstStartOf a =
          elapsed + ((lens.drop idx).take (j + 1)).sum - firstStartOf a := by
        rw [hmatch, hdrop, List.take_succ_cons, List.sum_cons]
        ring
      rw [hoff]

/-- C5 (confirmed): with K non-empty arrays and a full list of declared
durations, array k's first segment starts exactly at `d0 + ... + d(k-1)` and
every segment and word of array k is shifted by one common offset. -/
theorem stitcher_monotonic_placement (lens : List ℚ) (arrays : List (List SegmentDict))
    (hlen : arrays.length ≤ lens.length)
    (hne : ∀ a ∈ arrays, a ≠ [])
    (ht : ∀ a ∈ arrays, ∀ s ∈ a, s.timedB = true) :
    ∃ out : List (List SegmentDict),
      init_with_normalized_timestamps arrays lens = Except.ok out.flatten ∧
      out.length = arrays.length ∧
      ∀ (k : ℕ) (a : List SegmentDict), arrays[k]? = some a →
        out[k]? = some (a.map (shiftSegmentTotal ((lens.take k).sum - firstStartOf a))) ∧
        ((a.map (shiftSegmentTotal ((lens.take k).sum - firstStartOf a))).head?.map
          (fun s => s.start)) = some (some ((lens.take k).sum)) := by
  refine ⟨normalizeTotal lens 0 0 arrays, ?_,
    normalizeTotal_length arrays lens 0 0 hne, ?_⟩
  · unfold init_with_normalized_timestamps
    rw [normalizeLoop_ok arrays lens 0 0 ht]
    show Except.ok (correct_missing_times _) = _
    rw [correct_missing_times_timed_id _
      (fun s hs => normalizeTotal_timed arrays lens 0 0 s hs)]
  · intro k a hk
    constructor
    · rw [normalizeTotal_getElem arrays lens 0 0 hne (by omega) k a hk]
      have hoff : (0 : ℚ) + ((lens.drop 0).take k).sum - firstStartOf a =
          (lens.take k).sum - firstStartOf a := by
        rw [List.drop_zero]
        ring
      rw [hoff]
    · have hamem : a ∈ arrays := List.getElem?_mem hk
      obtain ⟨s0, tail, rfl⟩ : ∃ s0 t, a = s0 :: t := by
        cases a with
        | nil => exact absurd rfl (hne [] hamem)
        | cons x xs => exact ⟨x, xs, rfl⟩
      have hs0t : s0.timedB = true := ht _ hamem s0 (by simp)
      cases hb : s0.start with
      | none => simp [SegmentDict.timedB, hb] at hs0t
      | some v =>
        show some (some (s0.start.getD 0 + ((lens.take k).sum - firstStartOf (s0 :: tail))))
          = some (some ((lens.take k).sum))
        rw [show firstStartOf (s0 :: tail) = s0.start.getD 0 from rfl, hb]
        show some (some (v + ((lens.take k).sum - v))) = some (some ((lens.take k).sum))
        rw [show v + ((lens.take k).sum - v) = (lens.take k).sum from by ring]

/-- C5 witness: two single-segment arrays with durations [4, 6] stitch into a
flat two-segment output. -/
theorem stitcher_monotonic_placement_witness :
    ∃ out : List (List SegmentDict),
      init_with_normalized_timestamps [[stSegA], [stSegB]] [4, 6] = Except.ok out.flatten ∧
      out.length = 2 := by
  obtain ⟨out, h1, h2, _⟩ := stitcher_monotonic_placement [4, 6] [[stSegA], [stSegB]]
    (by simp) (by simp) (by decide)
  exact ⟨out, h1, h2⟩

/-- C3 counterexample: two arrays with NO declared durations. The claim says the
running elapsed time becomes the last appended segment's end (2.0), so the
second array would start at 2.0; the code leaves `total_elapsed_time` at 0.0,
so the second array is also placed at 0.0. -/
theorem stitcher_elapsed_unchanged_without_duration :
    ((init_with_normalized_timestamps [[stSegA], [stSegB]] []).toOption.map
      (List.map fun s => (s.start, s.end_))) =
      some [(some 0, some 2), (some 0, some 3)] ∧
    ((init_with_normalized_timestamps [[stSegA], [stSegB]] []).toOption.map
      (List.map fun s => (s.start, s.end_))) ≠
      some [(some 0, some 2), (some 2, some 5)] := by
  have hts : ∀ a ∈ [[stSegA], [stSegB]], ∀ s ∈ a, s.timedB = true := by decide
  have hv : ((init_with_normalized_timestamps [[stSegA], [stSegB]] []).toOption.map
      (List.map fun s => (s.start, s.end_))) =
      some [(some 0, some 2), (some 0, some 3)] := by
    unfold init_with_normalized_timestamps
    rw [normalizeLoop_ok [[stSegA], [stSegB]] [] 0 0 hts]
    show some (List.map _ (correct_missing_times _)) = _
    rw [correct_missing_times_timed_id _
      (fun s hs => normalizeTotal_timed [[stSegA], [stSegB]] [] 0 0 s hs)]
    norm_num [normalizeTotal, shiftSegmentTotal, stSegA, stSegB]
  refine ⟨hv, ?_⟩
  rw [hv]
  intro h
  simp only [Option.some.injEq, List.cons.injEq, Prod.mk.injEq] at h
  norm_num at h

/-- C3 (amended): placing a non-empty array advances `elapsed` by the declared
duration `audio_lengths[index]` when `index < len(audio_lengths)`, and
otherwise leaves `elapsed` UNCHANGED (it is not set to the last appended
segment's end). -/
theorem stitcher_elapsed_advance
    (lens : List ℚ) (idx : ℕ) (elapsed : ℚ) (s0 : SegmentDict)
    (srest : List SegmentDict) (rest : List (List SegmentDict))
    (shifted : List SegmentDict) (firstStart : ℚ)
    (hs : s0.start = some firstStart)
    (hmap : (s0 :: srest).mapM (shiftSegment (elapsed - firstStart)) = Except.ok shifted) :
    normalizeLoop lens idx elapsed ((s0 :: srest) :: rest) =
      (normalizeLoop lens (idx + 1)
        (match lens[idx]? with | some d => elapsed + d | none => elapsed) rest).map
        (fun tail => shifted ++ tail) := by
  simp only [normalizeLoop]
  rw [hs, show getKey (some firstStart) "start" = (Except.ok firstStart : Except String ℚ)
    from rfl]
  simp only [ok_bind]
  rw [hmap]
  simp only [ok_bind]
  cases hrec : normalizeLoop lens (idx + 1)
      (match lens[idx]? with | some d => elapsed + d | none => elapsed) rest with
  | error e => rfl
  | ok v => rfl

/-- C3 witness: a concrete non-empty array placed with no declared duration. -/
theorem stitcher_elapsed_advance_witness :
    normalizeLoop [] 0 0 [[stSegA], [stSegB]] =
      (normalizeLoop [] 1 0 [[stSegB]]).map
        (fun tail => [shiftSegmentTotal (0 - 0) stSegA] ++ tail) := by
  have hmap : ([stSegA]).mapM (shiftSegment ((0 : ℚ) - 0)) =
      Except.ok [shiftSegmentTotal (0 - 0) stSegA] :=
    mapM_shiftSegment (0 - 0) [stSegA] (by decide)
  exact stitcher_elapsed_advance [] 0 0 stSegA [] [[stSegB]]
    [shiftSegmentTotal (0 - 0) stSegA] 0 rfl hmap

/-! ## C4: pass-1 bridging of the gap closer -/

theorem bridgeStart_preserves (gap : ℚ) (p c : Segments) :
    (bridgeStart gap p c).end_ = c.end_ ∧ (bridgeStart gap p c).itt_end = c.itt_end ∧
    (bridgeStart gap p c).frame_rate = c.frame_rate := by
  unfold bridgeStart
  split
  · split
    · exact ⟨rfl, rfl, rfl⟩
    · exact ⟨rfl, rfl, rfl⟩
  · exact ⟨rfl, rfl, rfl⟩

theorem bridgeEnd_preserves (gap : ℚ) (p c : Segments) :
    (bridgeEnd gap p c).start = p.start ∧ (bridgeEnd gap p c).itt_start = p.itt_start := by
  unfold bridgeEnd
  split
  · split
    · exact ⟨rfl, rfl⟩
    · exact ⟨rfl, rfl⟩
  · exact ⟨rfl, rfl⟩

theorem pass1_head (gap : ℚ) (p : Segments) (l : List Segments) :
    ∃ c' : Segments, (pass1 gap p l)[0]? = some c' ∧
      c'.start = p.start ∧ c'.itt_start = p.itt_start := by
  cases l with
  | nil => exact ⟨p, rfl, rfl, rfl⟩
  | cons c rest =>
    refine ⟨bridgeEnd gap p c, ?_, (bridgeEnd_preserves gap p c).1,
      (bridgeEnd_preserves gap p c).2⟩
    rw [show pass1 gap p (c :: rest) =
      bridgeEnd gap p c :: pass1 gap (bridgeStart gap p c) rest from rfl,
      List.getElem?_cons_zero]

theorem pass1_pair (l : List Segments) :
    ∀ (gap : ℚ) (prev : Segments) (i : ℕ) (p c : Segments),
      (prev :: l)[i]? = some p → (prev :: l)[i + 1]? = some c →
      ∃ p' c' : Segments,
        (pass1 gap prev l)[i]? = some p' ∧ (pass1 gap prev l)[i + 1]? = some c' ∧
        bridgedPairSpec gap p.end_ c.start p.itt_end c.itt_start p' c' := by
  induction l with
  | nil =>
    intro gap prev i p c hp hc
    simp at hc
  | cons c0 l' ih =>
    intro gap prev i p c hp hc
    have hstep : pass1 gap prev (c0 :: l') =
        bridgeEnd gap prev c0 :: pass1 gap (bridgeStart gap prev c0) l' := rfl
    match i with
    | 0 =>
      rw [List.getElem?_cons_zero] at hp
      injection hp with hp
      subst hp
      rw [List.getElem?_cons_succ, List.getElem?_cons_zero] at hc
      injection hc with hc
      subst hc
      obtain ⟨c', hc', hcs, hcis⟩ := pass1_head gap (bridgeStart gap prev c0) l'
      refine ⟨bridgeEnd gap prev c0, c', by rw [hstep, List.getElem?_cons_zero],
        by rw [hstep, List.getElem?_cons_succ]; exact hc', ?_, ?_⟩
      · intro hno
        have hbe : bridgeEnd gap prev c0 = prev := by unfold bridgeEnd; rw [if_neg hno]
        have hbs : bridgeStart gap prev c0 = c0 := by unfold bridgeStart; rw [if_neg hno]
        rw [hbe]
        exact ⟨rfl, rfl, by rw [hcs, hbs], by rw [hcis, hbs]⟩
      · intro hyes
        by_cases hst : sameTimeB prev.itt_end c0.itt_start = true
        · have hbe : (bridgeEnd gap prev c0).end_ = c0.start := by
            unfold bridgeEnd
            rw [if_pos hyes, if_pos hst]
          have hbs : bridgeStart gap prev c0 = c0 := by
            unfold bridgeStart
            rw [if_pos hyes, if_pos hst]
          refine ⟨?_, fun _ => ?_, fun hfalse => ?_⟩
          · rw [hbe, hcs, hbs]
          · rw [hbe]
          · rw [hst] at hfalse
            exact Bool.noConfusion hfalse
        · have hbe : (bridgeEnd gap prev c0).end_ = (c0.start + prev.end_) / 2 := by
            unfold bridgeEnd
            rw [if_pos hyes, if_neg hst]
          have hbs : (bridgeStart gap prev c0).start = (c0.start + prev.end_) / 2 := by
            unfold bridgeStart
            rw [if_pos hyes, if_neg hst]
          refine ⟨?_, fun htr => absurd htr hst, fun _ => ?_⟩
          · rw [hbe, hcs, hbs]
          · rw [hbe]
    | j + 1 =>
      rw [List.getElem?_cons_succ] at hp hc
      cases j with
      | zero =>
        rw [List.getElem?_cons_zero] at hp
        injection hp with hp
        subst hp
        rw [List.getElem?_cons_succ] at hc
        obtain ⟨p', c', hp', hc', hspec⟩ :=
          ih gap (bridgeStart gap prev c0) 0 (bridgeStart gap prev c0) c
            (by rw [List.getElem?_cons_zero])
            (by rw [List.getElem?_cons_succ]; exact hc)
        refine ⟨p', c', by rw [hstep, List.getElem?_cons_succ]; exact hp',
          by rw [hstep, List.getElem?_cons_succ]; exact hc', ?_⟩
        rw [(bridgeStart_preserves gap prev c0).1,
          (bridgeStart_preserves gap prev c0).2.1] at hspec
        exact hspec
      | succ k =>
        rw [List.getElem?_cons_succ] at hp hc
        obtain ⟨p', c', hp', hc', hspec⟩ :=
          ih gap (bridgeStart gap prev c0) (k + 1) p c
            (by rw [List.getElem?_cons_succ]; exact hp)
            (by rw [List.getElem?_cons_succ]; exact hc)
        exact ⟨p', c', by rw [hstep, List.getElem?_cons_succ]; exact hp',
          by rw [hstep, List.getElem?_cons_succ]; exact hc', hspec⟩

/-- C4 (confirmed): for each adjacent pair, a gap at or above the threshold
leaves both boundary values (and their timecodes) untouched by pass 1; a gap
below the threshold makes the previous cue's end equal the current cue's start
after pass 1 — the current cue's original start when the two timecodes agree
on hours/minutes/seconds (frame snap), the arithmetic mean
`(current.start + previous.end) / 2` assigned to both boundaries otherwise. -/
theorem pass1_bridging (gap : ℚ) (o : List Segments) (i : ℕ) (p c : Segments)
    (hp : o[i]? = some p) (hc : o[i + 1]? = some c) :
    ∃ p' c' : Segments,
      (pass1Run gap o)[i]? = some p' ∧ (pass1Run gap o)[i + 1]? = some c' ∧
      (¬ (c.start - p.end_ < gap) →
        p'.end_ = p.end_ ∧ p'.itt_end = p.itt_end ∧
        c'.start = c.start ∧ c'.itt_start = c.itt_start) ∧
      ((c.start - p.end_ < gap) →
        p'.end_ = c'.start ∧
        (sameTimeB p.itt_end c.itt_start = true → p'.end_ = c.start) ∧
        (sameTimeB p.itt_end c.itt_start = false → p'.end_ = (c.start + p.end_) / 2)) := by
  cases o with
  | nil => simp at hp
  | cons s rest =>
    obtain ⟨p', c', h1, h2, hspec⟩ := pass1_pair rest gap s i p c hp hc
    exact ⟨p', c', h1, h2, hspec.1, hspec.2⟩

/-- C4 witness: the pair ([0,1], [5,5]) with threshold 10 is bridged: the gap
4 is below 10 and the cues end sharing one boundary. -/
theorem pass1_bridging_witness :
    ∃ p' c' : Segments, (pass1Run 10 [cgSegA, cgSegB])[0]? = some p' ∧
      (pass1Run 10 [cgSegA, cgSegB])[1]? = some c' ∧ p'.end_ = c'.start := by
  obtain ⟨p', c', h1, h2, _, hyes⟩ := pass1_bridging 10 [cgSegA, cgSegB] 0 cgSegA cgSegB rfl rfl
  have hlt : cgSegB.start - cgSegA.end_ < 10 := by norm_num [cgSegA, cgSegB]
  exact ⟨p', c', h1, h2, (hyes hlt).1⟩

/-! ## C1: pass-2 zero-width resolution of the gap closer -/

theorem pass2_getElem (l : List Segments) :
    ∀ (p : Option Segments) (i : ℕ) (seg : Segments), l[i]? = some seg →
      (pass2 p l)[i]? = some (pass2Step
        (match i with
          | 0 => p
          | j + 1 => (pass2 p l)[j]?) seg l[i + 1]?) := by
  induction l with
  | nil => intro p i seg hseg; simp at hseg
  | cons seg0 rest ih =>
    intro p i seg hseg
    have hstep : pass2 p (seg0 :: rest) =
        pass2Step p seg0 rest.head? :: pass2 (some (pass2Step p seg0 rest.head?)) rest := rfl
    match i with
    | 0 =>
      rw [List.getElem?_cons_zero] at hseg
      injection hseg with hseg
      subst hseg
      rw [hstep, List.getElem?_cons_zero]
      simp only [List.head?_eq_getElem?, List.getElem?_cons_succ]
    | j + 1 =>
      rw [List.getElem?_cons_succ] at hseg
      rw [hstep, List.getElem?_cons_succ, ih (some (pass2Step p seg0 rest.head?)) j seg hseg]
      cases j with
      | zero =>
        simp only [List.getElem?_cons_zero, List.getElem?_cons_succ]
      | succ k =>
        simp only [List.getElem?_cons_succ]

theorem pass2Step_zero_width (prevOut seg nxt : Segments) (hzw : seg.start = seg.end_) :
    pass2Step (some prevOut) seg (some nxt) =
      if prevOut.end_ = seg.end_
      then { seg with start := prevOut.end_, itt_start := prevOut.itt_end,
                      end_ := nxt.start, itt_end := nxt.itt_start }
      else { seg with start := prevOut.end_, itt_start := prevOut.itt_end } := by
  unfold pass2Step
  dsimp only
  rw [if_pos hzw]

/-- C1 counterexample: in [A=[0,1], B=[5,5], C=[10,12]] with threshold 1, pass 1
changes nothing and pass 2 gives the zero-width B the span [1,5], not the
claimed [previous.end, next.start] = [1,10]: after the start borrow B is no
longer zero-width, so the end borrow does not fire — the two borrows are NOT
independent. -/
theorem closeGap_zero_width_not_independent :
    (closeGapBetweenListOfSegments [cgSegA, cgSegB, cgSegC] 1).map
      (fun s => (s.start, s.end_)) = [(0, 1), (1, 5), (10, 12)] ∧
    (closeGapBetweenListOfSegments [cgSegA, cgSegB, cgSegC] 1).map
      (fun s => (s.start, s.end_)) ≠ [(0, 1), (1, 10), (10, 12)] := by
  have hv : (closeGapBetweenListOfSegments [cgSegA, cgSegB, cgSegC] 1).map
      (fun s => (s.start, s.end_)) = [(0, 1), (1, 5), (10, 12)] := by
    norm_num [closeGapBetweenListOfSegments, pass1, pass2, bridgeEnd, bridgeStart,
      pass2Step, sameTimeB, cgSegA, cgSegB, cgSegC]
  refine ⟨hv, ?_⟩
  rw [hv]
  intro h
  simp only [List.cons.injEq, Prod.mk.injEq] at h
  norm_num at h

/-- C1 (amended): in pass 2, a segment with `start == end` and neighbors on
both sides first gets its start replaced by the (already processed) previous
segment's end; the end borrow from the next segment fires only if the segment
is STILL zero-width after that first borrow (i.e. the previous segment's end
equals the collapsed value — always the case when pass-1 bridging caused the
collapse), and only then does the cue span exactly [previous.end, next.start]. -/
theorem pass2_zero_width_borrows (l : List Segments) (j : ℕ)
    (segi prevOut nxt : Segments)
    (hseg : l[j + 1]? = some segi)
    (hzw : segi.start = segi.end_)
    (hnxt : l[j + 2]? = some nxt)
    (hprev : (pass2 none l)[j]? = some prevOut) :
    (pass2 none l)[j + 1]? = some (if prevOut.end_ = segi.end_
      then { segi with start := prevOut.end_, itt_start := prevOut.itt_end,
                       end_ := nxt.start, itt_end := nxt.itt_start }
      else { segi with start := prevOut.end_, itt_start := prevOut.itt_end }) := by
  rw [pass2_getElem l none (j + 1) segi hseg]
  congr 1
  show pass2Step ((pass2 none l)[j]?) segi (l[j + 2]?) = _
  rw [hprev, hnxt, pass2Step_zero_width prevOut segi nxt hzw]

/-- C1 witness: B=[5,5] between A=[0,1] and C=[10,12]; A's end 1 differs from
the collapsed value 5, so only the start borrow applies. -/
theorem pass2_zero_width_borrows_witness :
    (pass2 none [cgSegA, cgSegB, cgSegC])[1]? =
      some { cgSegB with start := cgSegA.end_, itt_start := cgSegA.itt_end } := by
  have h := pass2_zero_width_borrows [cgSegA, cgSegB, cgSegC] 0 cgSegB cgSegA cgSegC
    rfl rfl rfl (by norm_num [pass2, pass2Step, List.head?_eq_getElem?, cgSegA])
  rw [h, if_neg (by norm_num [cgSegA, cgSegB])]
